import Mathlib

/-!
Verification of the content-addressed file registry of `ifsbench`
(`src/ifsbench/benchmark.py`): the `InputFile` value type, the
`ExperimentFiles` registry (manifest encoding/decoding, rebase against
source directories, `update_srcdir`), the `SpecialRelativePath` rewrite
rules built by `from_filename`, and the destination-selection loop of
`ExperimentFilesBenchmark.from_experiment_files`.

Modelling conventions:

* `pathlib` paths are modelled by `PyPath`: an `absolute` flag plus the
  list of path components.  `pathlib` normalises paths on construction
  (drops empty and `.` components) and `PurePosixPath(str(p)) == p`, so
  the canonical form stands for both the `Path` object and its `str`
  rendering; dictionary keys that Python stores as `str(path)` are kept
  as the canonical `PyPath`.
* The filesystem is a list of entries (full path, sha256 checksum, byte
  size).  `glob.iglob(str(src_dir/'**'/name), recursive=True)` is
  modelled as the fs entries lying strictly under `src_dir` whose last
  component equals `name`, in fs-list order (the candidate list built in
  `_input_file_in_src_dir` keeps the configured source-root order as its
  major order, which is all the code relies on).
* Python `dict`s that the code mutates via `popitem` are association
  lists; `popitem` removes the last entry.  `KeyError` raised by
  `popitem` on an empty dict and the `AssertionError` of the
  `assert not data` leftover check are the two structural decode
  failures that the specification groups under `ManifestMalformed`.
* The Python `set` `ExperimentFiles._files` is a list together with the
  insertion discipline of a hash set: an insert is a no-op exactly when
  an element with the same hash key (`hash(checksum or fullpath)`,
  hashes of distinct strings taken as distinct) that compares equal
  (`__eq__`) is already present.
* Exceptions are an explicit error type; stateful methods that mutate
  `self` before possibly raising return the mutated state together with
  an optional error.
-/

set_option autoImplicit false

namespace Ifsbench

/-- Character list of a string; all string manipulation in this model
is done on character lists by structural recursion so that concrete
computations reduce inside the kernel. -/
def chars (s : String) : List Char := s.data

/-- String from a character list. -/
def ofChars (l : List Char) : String := String.mk l

/-- Split a character list at a separator character (used only with
`'/'`, mirroring `str.split`/`pathlib` component handling). -/
def splitOnChar (c : Char) : List Char → List (List Char)
  | [] => [[]]
  | a :: rest =>
    let r := splitOnChar c rest
    if a = c then [] :: r
    else
      match r with
      | h :: t => (a :: h) :: t
      | [] => [[a]]

/-- Does `sub` occur anywhere in `s` (Python `sub in s`)? -/
def charsContain (s sub : List Char) : Bool :=
  (List.range (s.length + 1)).any fun i => sub.isPrefixOf (s.drop i)

/-- Model of a normalised `pathlib.PurePosixPath`: absolute flag plus
path components (empty and `.` components are dropped by `pathlib` on
construction). -/
structure PyPath where
  absolute : Bool
  segments : List String
deriving DecidableEq

/-- `Path.name`: the final path component, `""` when there is none. -/
def PyPath.name (p : PyPath) : String :=
  p.segments.getLast?.getD ""

/-- `str(path)` for a normalised path. -/
def PyPath.str (p : PyPath) : String :=
  if p.segments.isEmpty then (if p.absolute then "/" else ".")
  else ofChars ((if p.absolute then ['/'] else []) ++
                List.intercalate ['/'] (p.segments.map chars))

/-- `p / q` on `pathlib` paths: an absolute right operand replaces the
left one, otherwise the components are appended. -/
def PyPath.div (p q : PyPath) : PyPath :=
  if q.absolute then q else ⟨p.absolute, p.segments ++ q.segments⟩

/-- `Path.relative_to`: strips `base` off the front of `p`; `none`
models the `ValueError` raised when `p` does not lie under `base`. -/
def PyPath.relative_to (p base : PyPath) : Option PyPath :=
  if p.absolute = base.absolute ∧ base.segments.isPrefixOf p.segments then
    some ⟨false, p.segments.drop base.segments.length⟩
  else none

/-- The filesystem root `Path('/')`, the default `src_dir` of
`InputFile.__init__`. -/
def rootPath : PyPath := ⟨true, []⟩

/-- Python `sub in s` on strings. -/
def strContains (s sub : String) : Bool :=
  charsContain (chars s) (chars sub)

/-- Exceptions raised by the registry code.  `keyErrorEmptyPop` is the
`KeyError` of `dict.popitem()` on an empty dict, `assertLeftover` the
`AssertionError` of `assert not data`; together they are the structural
decode failures the specification calls `ManifestMalformed`.
`keyErrorField` is a `KeyError` for a missing metadata field,
`pathEscapesRoot` the `ValueError` of `Path.relative_to`,
`fileNotFound` a checksum/stat attempt on a file that does not exist,
`checksumMismatch` the `ValueError('Checksum ... does not match')`, and
`notFound` the `ValueError('Input file ... not found in source
directories')`. -/
inductive PyErr where
  | keyErrorEmptyPop
  | assertLeftover
  | keyErrorField
  | pathEscapesRoot
  | fileNotFound
  | checksumMismatch
  | notFound
deriving DecidableEq

/-- The two structural decode failures grouped as `ManifestMalformed`
by the specification. -/
def PyErr.isManifestMalformed : PyErr → Bool
  | .keyErrorEmptyPop => true
  | .assertLeftover => true
  | _ => false

/-- Python truthiness of an optional string (`None` and `''` falsy). -/
def strTruthy : Option String → Bool
  | some s => !(chars s).isEmpty
  | none => false

/-- Python truthiness of an optional integer (`None` and `0` falsy). -/
def natTruthy : Option Nat → Bool
  | some n => decide (n ≠ 0)
  | none => false

/-- One filesystem entry: full path, sha256 checksum, size in bytes. -/
structure FSEntry where
  path : PyPath
  sha256 : String
  size : Nat
deriving DecidableEq

/-- The filesystem visible to checksum computation and globbing. -/
abbrev FS := List FSEntry

/-- Checksum and size of the file at `p` (`none`: no such file). -/
def fsLookup (fs : FS) (p : PyPath) : Option (String × Nat) :=
  (fs.find? fun e => decide (e.path = p)).map fun e => (e.sha256, e.size)

/-- Checksum of the file at `p`, if it exists. -/
def checksumAt (fs : FS) (p : PyPath) : Option String :=
  (fsLookup fs p).map (·.1)

/-- `InputFile`: `src_dir` (the code's `_src_dir`), `path` (the code's
`_path`, relative to `src_dir`), optional sha256 checksum and optional
size. -/
structure InputFile where
  src_dir : PyPath
  path : PyPath
  checksum : Option String
  size : Option Nat
deriving DecidableEq

/-- `InputFile.fullpath`: `self.src_dir / self._path`. -/
def InputFile.fullpath (f : InputFile) : PyPath :=
  f.src_dir.div f.path

/-- `InputFile.__init__(path, src_dir, compute_metadata)`: defaults
`src_dir` to `/`, stores `Path(path).relative_to(src_dir)`, and when
`compute_metadata` computes checksum and size from the filesystem. -/
def inputFileInit (fs : FS) (path : PyPath) (srcDir : Option PyPath)
    (computeMetadata : Bool) : Except PyErr InputFile :=
  let sd := srcDir.getD rootPath
  match path.relative_to sd with
  | none => .error .pathEscapesRoot
  | some rel =>
    if computeMetadata then
      match fsLookup fs (sd.div rel) with
      | none => .error .fileNotFound
      | some cn => .ok ⟨sd, rel, some cn.1, some cn.2⟩
    else .ok ⟨sd, rel, none, none⟩

/-- `InputFile.__eq__`: when either checksum is falsy compare full
paths, otherwise compare checksums. -/
def inputFileEq (a b : InputFile) : Bool :=
  if !strTruthy a.checksum || !strTruthy b.checksum then decide (a.fullpath = b.fullpath)
  else decide (a.checksum = b.checksum)

/-- The key whose Python hash `InputFile.__hash__` returns:
`hash(self.checksum or self.fullpath)`, i.e. the checksum string when
truthy and otherwise the full path (a `PurePath` hashes by its tuple of
parts, so distinct normalised paths hash differently, and a path never
shares a hash bucket with a hex checksum string).  Both cases are
modelled by the rendered string, distinct keys standing for distinct
hashes. -/
def inputFileHashKey (f : InputFile) : String :=
  if strTruthy f.checksum then f.checksum.getD "" else f.fullpath.str

/-- Membership test of a Python `set` of `InputFile`: same hash bucket
(equal hash keys) and `__eq__`. -/
def sameSetElem (a b : InputFile) : Bool :=
  decide (inputFileHashKey a = inputFileHashKey b) && inputFileEq a b

/-- `set.add`: a no-op when an element in the same hash bucket compares
equal, otherwise the element is inserted. -/
def setAdd (s : List InputFile) (f : InputFile) : List InputFile :=
  if s.any (fun g => sameSetElem g f) then s else s ++ [f]

/-- The inner metadata dict of a manifest entry: `fullpath` plus the
optional `sha256sum` and `size` keys (a key is present iff `some`). -/
structure FileMeta where
  fullpath : Option PyPath
  sha256sum : Option String
  size : Option Nat
deriving DecidableEq

/-- `InputFile.to_dict`: `{str(self.path): {'fullpath': ...,
'sha256sum'?: ..., 'size'?: ...}}` where the optional keys are written
only when truthy. -/
def InputFile.to_dict (f : InputFile) : PyPath × FileMeta :=
  (f.path,
    { fullpath := some f.fullpath
      sha256sum := if strTruthy f.checksum then f.checksum else none
      size := if natTruthy f.size then f.size else none })

/-- The per-file manifest dict `{str(path): meta}` that
`InputFile.from_dict` consumes via `popitem`. -/
abbrev FileDict := List (PyPath × FileMeta)

/-- `InputFile.from_dict(data, src_dir, verify_checksum)`.  Returns the
result together with the state of the caller's dict after the
`popitem` mutation. -/
def inputFileFromDict (fs : FS) (data : FileDict) (srcDir : Option PyPath)
    (verifyChecksum : Bool) : Except PyErr InputFile × FileDict :=
  match data.getLast? with
  | none => (.error .keyErrorEmptyPop, data)
  | some pm =>
    let rest := data.dropLast
    if !rest.isEmpty then (.error .assertLeftover, rest)
    else
      match pm.2.fullpath with
      | none => (.error .keyErrorField, rest)
      | some fp =>
        match inputFileInit fs fp srcDir verifyChecksum with
        | .error e => (.error e, rest)
        | .ok obj =>
          if verifyChecksum then
            match pm.2.sha256sum with
            | none => (.error .keyErrorField, rest)
            | some c =>
              if decide (some c ≠ obj.checksum) then (.error .checksumMismatch, rest)
              else (.ok obj, rest)
          else (.ok { obj with checksum := pm.2.sha256sum, size := pm.2.size }, rest)

/-- `ExperimentFiles`: experiment id, ordered source directories, and
the set of tracked files (list with hash-set insertion discipline). -/
structure ExperimentFiles where
  exp_id : String
  src_dir : List PyPath
  files : List InputFile
deriving DecidableEq

/-- The middle layer of a manifest: `{str(src_dir): {str(path): meta}}`. -/
abbrev SrcDirMap := List (PyPath × FileDict)

/-- A whole manifest: `{exp_id: src_dir_map}`. -/
abbrev ManifestDict := List (String × SrcDirMap)

/-- `dict.update` with a single key: replace in place when the key is
present, otherwise append. -/
def updateFileDict (m : FileDict) (kv : PyPath × FileMeta) : FileDict :=
  if m.any (fun e => decide (e.1 = kv.1)) then
    m.map (fun e => if e.1 = kv.1 then kv else e)
  else m ++ [kv]

/-- `data[str(f.src_dir)].update(f.to_dict())` on the
`defaultdict(dict)` of `ExperimentFiles.to_dict`. -/
def updateSrcDirMap (m : SrcDirMap) (sd : PyPath) (kv : PyPath × FileMeta) : SrcDirMap :=
  if m.any (fun e => decide (e.1 = sd)) then
    m.map (fun e => if e.1 = sd then (e.1, updateFileDict e.2 kv) else e)
  else m ++ [(sd, [kv])]

/-- The grouping loop of `ExperimentFiles.to_dict`. -/
def groupFiles (files : List InputFile) : SrcDirMap :=
  files.foldl (fun acc f => updateSrcDirMap acc f.src_dir f.to_dict) []

/-- `ExperimentFiles.to_dict`: `{exp_id: grouped files}`. -/
def ExperimentFiles.to_dict (r : ExperimentFiles) : ManifestDict :=
  [(r.exp_id, groupFiles r.files)]

/-- Flattening of the nested manifest mapping into `(src_dir, (path,
meta))` triples, in dict iteration order; this is the iteration order
of the set comprehension in `ExperimentFiles.from_dict`. -/
def flattenSrcDirMap (m : SrcDirMap) : List (PyPath × PyPath × FileMeta) :=
  m.flatMap fun e => e.2.map fun kv => (e.1, kv)

/-- The set comprehension of `ExperimentFiles.from_dict`: decode each
`(src_dir, (path, meta))` via `InputFile.from_dict({p: f}, src_dir,
verify_checksum)` and insert into the set; a raise aborts the whole
comprehension. -/
def decodeFilesAux (fs : FS) (verifyChecksum : Bool) :
    List (PyPath × PyPath × FileMeta) → List InputFile → Except PyErr (List InputFile)
  | [], acc => .ok acc
  | t :: rest, acc =>
    match (inputFileFromDict fs [t.2] (some t.1) verifyChecksum).1 with
    | .error e => .error e
    | .ok f => decodeFilesAux fs verifyChecksum rest (setAdd acc f)

/-- `ExperimentFiles.from_dict(data, verify_checksum)`: pops the single
`exp_id` entry, reads the source roots from the middle-layer keys and
decodes every file.  Returns the result together with the state of the
caller's dict after the `popitem` mutation. -/
def expFilesFromDict (fs : FS) (data : ManifestDict) (verifyChecksum : Bool) :
    Except PyErr ExperimentFiles × ManifestDict :=
  match data.getLast? with
  | none => (.error .keyErrorEmptyPop, data)
  | some es =>
    let rest := data.dropLast
    if !rest.isEmpty then (.error .assertLeftover, rest)
    else
      match decodeFilesAux fs verifyChecksum (flattenSrcDirMap es.2) [] with
      | .error e => (.error e, rest)
      | .ok fl => (.ok ⟨es.1, es.2.map (·.1), fl⟩, rest)

/-- `glob.iglob(str(src_dir/'**'/name), recursive=True)`: the fs
entries strictly under `sd` whose final component is `nm`, in fs
order. -/
def globName (fs : FS) (sd : PyPath) (nm : String) : List PyPath :=
  (fs.filter fun e =>
    match e.path.relative_to sd with
    | some rel => !rel.segments.isEmpty && decide (rel.name = nm)
    | none => false).map (·.path)

/-- The candidate list of `_input_file_in_src_dir`: source roots in
configured order (major), glob results per root (minor). -/
def candidatesIn (fs : FS) (roots : List PyPath) (nm : String) : List (PyPath × PyPath) :=
  roots.flatMap fun sd => (globName fs sd nm).map fun p => (p, sd)

/-- The candidate loop of `_input_file_in_src_dir`: build
`InputFile(path, src_dir)` for each candidate in order and return the
first whose checksum equals the tracked file's checksum. -/
def scanCandidates (fs : FS) (cks : Option String) :
    List (PyPath × PyPath) → Except PyErr (Option InputFile)
  | [] => .ok none
  | c :: rest =>
    match inputFileInit fs c.1 (some c.2) true with
    | .error e => .error e
    | .ok cf =>
      if decide (cf.checksum = cks) then .ok (some cf) else scanCandidates fs cks rest

/-- `ExperimentFiles._input_file_in_src_dir(input_file,
verify_checksum)`: with no source roots return the file unchanged;
otherwise return the first checksum-matching candidate, and with no
match fail with `notFound` when verifying, else keep the original. -/
def inputFileInSrcDir (fs : FS) (r : ExperimentFiles) (f : InputFile)
    (verifyChecksum : Bool) : Except PyErr InputFile :=
  if r.src_dir.isEmpty then .ok f
  else
    match scanCandidates fs f.checksum (candidatesIn fs r.src_dir f.path.name) with
    | .error e => .error e
    | .ok (some cf) => .ok cf
    | .ok none => if verifyChecksum then .error .notFound else .ok f

/-- `ExperimentFiles.add_file` for one path: build the root-agnostic
`InputFile`, rebase it (verification follows `compute_metadata`), and
insert it. -/
def addFile (fs : FS) (r : ExperimentFiles) (path : PyPath)
    (computeMetadata : Bool) : Except PyErr ExperimentFiles :=
  match inputFileInit fs path none computeMetadata with
  | .error e => .error e
  | .ok inf =>
    match inputFileInSrcDir fs r inf computeMetadata with
    | .error e => .error e
    | .ok nf => .ok { r with files := setAdd r.files nf }

/-- `ExperimentFiles.add_input_file` for one file: rebase and insert. -/
def addInputFile (fs : FS) (r : ExperimentFiles) (f : InputFile)
    (verifyChecksum : Bool) : Except PyErr ExperimentFiles :=
  match inputFileInSrcDir fs r f verifyChecksum with
  | .error e => .error e
  | .ok nf => .ok { r with files := setAdd r.files nf }

/-- The reserved marker segment: `'/ifsdata/' in str(f.fullpath)`. -/
def isIfsdataFile (f : InputFile) : Bool :=
  strContains f.fullpath.str "/ifsdata/"

/-- `ExperimentFiles.exp_files`: the experiment-specific subset. -/
def expFiles (r : ExperimentFiles) : List InputFile :=
  r.files.filter fun f => !isIfsdataFile f

/-- `ExperimentFiles.ifsdata_files`: the static ifsdata subset. -/
def ifsdataFiles (r : ExperimentFiles) : List InputFile :=
  r.files.filter isIfsdataFile

/-- The `while old_files` loop of `update_srcdir`: rebase each member
with verification and insert into the accumulating new set; a raise
aborts the loop. -/
def rebaseLoop (fs : FS) (r : ExperimentFiles) :
    List InputFile → List InputFile → Except PyErr (List InputFile)
  | [], acc => .ok acc
  | f :: rest, acc =>
    match inputFileInSrcDir fs r f true with
    | .error e => .error e
    | .ok nf => rebaseLoop fs r rest (setAdd acc nf)

/-- `ExperimentFiles.update_srcdir(src_dir, update_files,
with_ifsdata)`.  The method first assigns `self.src_dir` and only then
rebases, so on a raise the caller observes the new roots with the old
file set; the returned pair is the observable state of `self` together
with the raised exception, if any. -/
def updateSrcdir (fs : FS) (r : ExperimentFiles) (newRoots : List PyPath)
    (updateFiles withIfsdata : Bool) : ExperimentFiles × Option PyErr :=
  let r1 := { r with src_dir := newRoots }
  if updateFiles then
    let old := if withIfsdata then r1.files else expFiles r1
    let keep := if withIfsdata then [] else ifsdataFiles r1
    match rebaseLoop fs r1 old keep with
    | .ok nf => ({ r1 with files := nf }, none)
    | .error e => (r1, some e)
  else (r1, none)

/-- `SpecialRelativePath.NameMatch`. -/
inductive NameMatch where
  | exact
  | leftAligned
  | rightAligned
  | free
deriving DecidableEq

/-- One piece of an `re.sub` replacement template: literal text or a
named group reference `\g<...>`. -/
inductive ReplItem where
  | lit (s : String)
  | group (g : String)
deriving DecidableEq

/-- The named captures of the pattern built by
`SpecialRelativePath.from_filename`: the regex is
`^(?P<parent>.*?\/)?(?P<name>(?P<pre>[^\/]*?)?(?P<match>FILENAME)(?P<post>[^\/]*?)?)$`
with `pre`/`post` present according to the matching mode, and
`name = pre ++ matched ++ post`.  An absent group captures `""`. -/
structure FnameGroups where
  parent : String
  pre : String
  matched : String
  post : String
deriving DecidableEq

/-- Split a string at its final `/`: `("/dir/", "xx")` for
`"/dir/xx"`. -/
def splitLastSlash (s : String) : String × String :=
  let nm := (splitOnChar '/' (chars s)).getLast?.getD (chars s)
  (ofChars ((chars s).take ((chars s).length - nm.length)), ofChars nm)

/-- Least index at which `lit` occurs in `nm` (lazy `pre` wildcard of
the FREE regex picks the least). -/
def firstOccurrenceIdx (nm lit : List Char) : Option Nat :=
  (List.range (nm.length + 1)).find? fun j => lit.isPrefixOf (nm.drop j)

/-- Matching semantics of the `from_filename` pattern for a literal
`filename` (no `/` and no regex metacharacters).  Because `pre`, the
literal and `post` cannot contain `/`, the lazy optional `parent` group
is forced to everything up to and including the final `/`; the
remainder (the final path component) must then consist of the literal
with wildcards on the sides allowed by the mode, the lazy `pre` taking
the least possible length. -/
def matchFromFilename (mode : NameMatch) (filename s : String) : Option FnameGroups :=
  let pn := splitLastSlash s
  let nm := chars pn.2
  let lit := chars filename
  match mode with
  | .exact =>
    if nm = lit then some ⟨pn.1, "", filename, ""⟩ else none
  | .leftAligned =>
    if lit.isPrefixOf nm then
      some ⟨pn.1, "", filename, ofChars (nm.drop lit.length)⟩
    else none
  | .rightAligned =>
    if lit.isSuffixOf nm then
      some ⟨pn.1, ofChars (nm.take (nm.length - lit.length)), filename, ""⟩
    else none
  | .free =>
    match firstOccurrenceIdx nm lit with
    | some j => some ⟨pn.1, ofChars (nm.take j), filename, ofChars (nm.drop (j + lit.length))⟩
    | none => none

/-- Value of a named group in the replacement template. -/
def groupValue (g : FnameGroups) : String → String
  | "parent" => g.parent
  | "name" => g.pre ++ g.matched ++ g.post
  | "pre" => g.pre
  | "match" => g.matched
  | "post" => g.post
  | _ => ""

/-- Expansion of an `re.sub` replacement template against the
captures. -/
def expandRepl (g : FnameGroups) (repl : List ReplItem) : String :=
  repl.foldl (fun acc it =>
    acc ++ match it with
           | .lit s => s
           | .group nm => groupValue g nm) ""

/-- `SpecialRelativePath.__call__` for a rule built by
`from_filename(filename, repl, match=mode)`: `re.sub` with an anchored
pattern replaces the whole string by the expanded template on a match
and returns the input unchanged otherwise. -/
def fromFilenameApply (mode : NameMatch) (filename : String) (repl : List ReplItem)
    (s : String) : String :=
  match matchFromFilename mode filename s with
  | some g => expandRepl g repl
  | none => s

/-- `str(Path(dest).name)`: last component after `pathlib`
normalisation (empty and `.` components dropped), `""` when none. -/
def pyNameStr (s : String) : String :=
  ofChars (((splitOnChar '/' (chars s)).filter fun t =>
    !t.isEmpty && decide (t ≠ ['.'])).getLast?.getD [])

/-- The destination-selection loop of
`ExperimentFilesBenchmark.from_experiment_files`: `dest` starts as the
source path, each rule is applied to the current `dest`, the loop
breaks at the first output that differs from the source, and the
`for`-`else` branch falls back to `str(Path(dest).name)`.  A rule is
abstracted as its `__call__` function on path strings. -/
def placementLoop : List (String → String) → String → String → String
  | [], _, dest => pyNameStr dest
  | rl :: rest, source, dest =>
    let d := rl dest
    if d ≠ source then d else placementLoop rest source d

/-- Destination computed by `from_experiment_files` for one file with
full path `path` under the ordered rule list `rules`. -/
def placementDest (rules : List (String → String)) (path : String) : String :=
  placementLoop rules path path

/-- Specification-side destination: the output of the first rule whose
output differs from the input path, else the base name (spec §6,
"Placement collaborator contract"); `placementDest` is proved to
refine this. -/
def specDestination (rules : List (String → String)) (path : String) : String :=
  match rules.find? (fun rl => decide (rl path ≠ path)) with
  | some rl => rl path
  | none => pyNameStr path

/-- Normalisation applied by a manifest round trip to the optional
metadata: `to_dict` writes `sha256sum`/`size` only when truthy, so an
empty-string checksum and a zero size decode as absent. -/
def normFalsy (f : InputFile) : InputFile :=
  { f with
    checksum := if strTruthy f.checksum then f.checksum else none
    size := if natTruthy f.size then f.size else none }

/-- The `(src_dir, (path, meta))` triple a file contributes to the
flattened manifest. -/
def entryOf (f : InputFile) : PyPath × PyPath × FileMeta :=
  (f.src_dir, f.to_dict)

/-- Total function agreeing with the file decoded (verification
disabled) from a manifest triple whenever decoding succeeds. -/
def decodeEntry (t : PyPath × PyPath × FileMeta) : InputFile :=
  { src_dir := t.1
    path := ((t.2.2.fullpath.getD rootPath).relative_to t.1).getD rootPath
    checksum := t.2.2.sha256sum
    size := t.2.2.size }

/-- Source roots owning at least one file, in first-appearance order of
the file list: the middle-layer key order of `to_dict`'s manifest. -/
def rootsInOrder (files : List InputFile) : List PyPath :=
  files.foldl (fun acc f => if acc.any (fun sd => decide (sd = f.src_dir)) then acc
                            else acc ++ [f.src_dir]) []

/-- A root has a rebase match for `f`: some glob candidate under it has
`f`'s checksum. -/
def hasChecksumMatch (fs : FS) (f : InputFile) (sd : PyPath) : Bool :=
  (globName fs sd f.path.name).any fun p => decide (checksumAt fs p = f.checksum)

/-- Did a decode raise one of the structural (`ManifestMalformed`)
failures? -/
def resultMalformed {α : Type} : Except PyErr α → Bool
  | .error e => e.isManifestMalformed
  | .ok _ => false

/-! ### Helper lemmas -/

/-- Joining a relative path onto a base and stripping the base again
returns the relative path (the round trip used by the manifest
decoders). -/
theorem div_relative_to (sd p : PyPath) (h : p.absolute = false) :
    (sd.div p).relative_to sd = some p := by
  cases p with
  | mk abs segs =>
    simp only at h
    subst h
    simp [PyPath.div, PyPath.relative_to, List.isPrefixOf_iff_prefix]

/-- `setAdd` never removes elements. -/
theorem mem_setAdd_of_mem {s : List InputFile} {g : InputFile} (f : InputFile)
    (h : g ∈ s) : g ∈ setAdd s f := by
  unfold setAdd
  split
  · exact h
  · exact List.mem_append_left _ h

/-- Every element of the accumulator survives a successful
`rebaseLoop`. -/
theorem rebaseLoop_acc_mem (fs : FS) (r : ExperimentFiles) :
    ∀ (l acc res : List InputFile), rebaseLoop fs r l acc = .ok res →
      ∀ g ∈ acc, g ∈ res := by
  intro l
  induction l with
  | nil =>
    intro acc res h g hg
    unfold rebaseLoop at h
    cases h
    exact hg
  | cons f rest ih =>
    intro acc res h g hg
    unfold rebaseLoop at h
    cases hrb : inputFileInSrcDir fs r f true with
    | error e => rw [hrb] at h; cases h
    | ok nf =>
      rw [hrb] at h
      exact ih _ _ h g (mem_setAdd_of_mem nf hg)

/-- `inputFileInit` never raises a structural decode failure. -/
theorem initErr_not_malformed (fs : FS) (p : PyPath) (sd : Option PyPath)
    (cm : Bool) (e : PyErr) (h : inputFileInit fs p sd cm = .error e) :
    e.isManifestMalformed = false := by
  unfold inputFileInit at h
  dsimp only at h
  cases hrel : p.relative_to (sd.getD rootPath) with
  | none => simp only [hrel] at h; cases h; rfl
  | some rel =>
    simp only [hrel] at h
    cases cm with
    | false => simp only [Bool.false_eq_true, if_false] at h; cases h
    | true =>
      simp only [if_true] at h
      cases hlook : fsLookup fs ((sd.getD rootPath).div rel) with
      | none => simp only [hlook] at h; cases h; rfl
      | some cn => simp only [hlook] at h; cases h

/-- `InputFile.from_dict` on a singleton dict never raises a structural
decode failure. -/
theorem fromDict_singleton_error (fs : FS) (x : PyPath × FileMeta)
    (sd : Option PyPath) (v : Bool) (e : PyErr)
    (h : (inputFileFromDict fs [x] sd v).1 = .error e) :
    e.isManifestMalformed = false := by
  unfold inputFileFromDict at h
  simp only [show ([x] : FileDict).getLast? = some x from rfl,
    show ([x] : FileDict).dropLast = ([] : FileDict) from rfl,
    List.isEmpty_nil, Bool.not_true, Bool.false_eq_true, if_false] at h
  cases hfp : x.2.fullpath with
  | none => simp only [hfp] at h; cases h; rfl
  | some fp =>
    simp only [hfp] at h
    cases hinit : inputFileInit fs fp sd v with
    | error e' =>
      simp only [hinit] at h
      cases h
      exact initErr_not_malformed fs fp sd v e hinit
    | ok obj =>
      simp only [hinit] at h
      cases v with
      | false => simp only [Bool.false_eq_true, if_false] at h; cases h
      | true =>
        simp only [if_true] at h
        cases hsha : x.2.sha256sum with
        | none => simp only [hsha] at h; cases h; rfl
        | some c =>
          simp only [hsha] at h
          split at h
          · cases h; rfl
          · cases h

/-- The decode comprehension of `ExperimentFiles.from_dict` never
raises a structural decode failure (every inner dict is a
singleton). -/
theorem decodeAux_not_malformed (fs : FS) (v : Bool) :
    ∀ (pairs : List (PyPath × PyPath × FileMeta)) (acc : List InputFile) (e : PyErr),
      decodeFilesAux fs v pairs acc = .error e → e.isManifestMalformed = false := by
  intro pairs
  induction pairs with
  | nil =>
    intro acc e h
    unfold decodeFilesAux at h
    cases h
  | cons t rest ih =>
    intro acc e h
    unfold decodeFilesAux at h
    cases hdec : (inputFileFromDict fs [t.2] (some t.1) v).1 with
    | error e' =>
      rw [hdec] at h
      cases h
      exact fromDict_singleton_error fs t.2 (some t.1) v e hdec
    | ok f =>
      rw [hdec] at h
      exact ih _ _ h

/-- `InputFile.from_dict` on a singleton dict always leaves the dict
empty (the entry is popped whatever happens afterwards). -/
theorem fromDict_singleton_snd (fs : FS) (x : PyPath × FileMeta)
    (sd : Option PyPath) (v : Bool) :
    (inputFileFromDict fs [x] sd v).2 = [] := by
  unfold inputFileFromDict
  simp only [show ([x] : FileDict).getLast? = some x from rfl,
    show ([x] : FileDict).dropLast = ([] : FileDict) from rfl,
    List.isEmpty_nil, Bool.not_true, Bool.false_eq_true, if_false]
  cases hfp : x.2.fullpath with
  | none => rfl
  | some fp =>
    cases hinit : inputFileInit fs fp sd v with
    | error e => simp [hinit]
    | ok obj =>
      simp only [hinit]
      cases v with
      | false => rfl
      | true =>
        cases hsha : x.2.sha256sum with
        | none => rfl
        | some c => by_cases hc : some c ≠ obj.checksum <;> simp [hc]

/-- `ExperimentFiles.from_dict` on a singleton dict always leaves the
dict empty. -/
theorem expFromDict_singleton_snd (fs : FS) (es : String × SrcDirMap) (v : Bool) :
    (expFilesFromDict fs [es] v).2 = [] := by
  unfold expFilesFromDict
  simp only [show ([es] : ManifestDict).getLast? = some es from rfl,
    show ([es] : ManifestDict).dropLast = ([] : ManifestDict) from rfl,
    List.isEmpty_nil, Bool.not_true, Bool.false_eq_true, if_false]
  cases hdec : decodeFilesAux fs v (flattenSrcDirMap es.2) [] with
  | error e => simp [hdec]
  | ok fl => simp [hdec]

/-- On a dict with two or more entries, `InputFile.from_dict` stops at
the leftover check. -/
theorem fromDict_multi (fs : FS) (a b : PyPath × FileMeta) (t : FileDict)
    (sd : Option PyPath) (v : Bool) :
    (inputFileFromDict fs (a :: b :: t) sd v).1 = .error .assertLeftover := by
  unfold inputFileFromDict
  have hne : (b :: t) ≠ [] := by simp
  cases hlast : (a :: b :: t).getLast? with
  | none => simp [List.getLast?_eq_none_iff] at hlast
  | some pm =>
    simp only [List.dropLast_cons_of_ne_nil hne, List.isEmpty_cons, Bool.not_false, if_true]

/-- On a dict with two or more entries, `ExperimentFiles.from_dict`
stops at the leftover check. -/
theorem expFromDict_multi (fs : FS) (a b : String × SrcDirMap) (t : ManifestDict) (v : Bool) :
    (expFilesFromDict fs (a :: b :: t) v).1 = .error .assertLeftover := by
  unfold expFilesFromDict
  have hne : (b :: t) ≠ [] := by simp
  cases hlast : (a :: b :: t).getLast? with
  | none => simp [List.getLast?_eq_none_iff] at hlast
  | some es =>
    simp only [List.dropLast_cons_of_ne_nil hne, List.isEmpty_cons, Bool.not_false, if_true]

/-! ### Claims -/

/-- C7: a filename rule built in FREE mode for the literal `"abc"`
applied to `"/dir/xxabcyy"` captures `pre = "xx"`, `match = "abc"`,
`post = "yy"` (the wildcards stay clear of the literal), so a
replacement referencing only the `match` group yields exactly `"abc"`;
the same rule in EXACT mode does not match `"/dir/xabcy"` (non-empty
pre/post) and `__call__` returns the input unchanged. -/
theorem C7_filename_rule_modes :
    matchFromFilename .free "abc" "/dir/xxabcyy" =
      some { parent := "/dir/", pre := "xx", matched := "abc", post := "yy" } ∧
    fromFilenameApply .free "abc" [.group "match"] "/dir/xxabcyy" = "abc" ∧
    matchFromFilename .exact "abc" "/dir/xabcy" = none ∧
    fromFilenameApply .exact "abc" [.group "match"] "/dir/xabcy" = "/dir/xabcy" := by
  refine ⟨by decide, by decide, by decide, by decide⟩

/-- C3: at the failing input — two `InputFile` values with the same
full path, one carrying a checksum and one not — `__eq__` returns
`True` (path identity mode) while `__hash__` hashes the first by its
checksum string and the second by its path string, so equal values get
different hashes, violating the hash/equality consistency the claim
(and Python's data model) requires.  The first conjunct confirms the
claim's special case: equal non-empty checksums with different paths
compare equal with equal hashes. -/
theorem C3_hash_eq_inconsistency :
    (inputFileEq ⟨rootPath, ⟨false, ["p"]⟩, some "aa", some 1⟩
        ⟨rootPath, ⟨false, ["q"]⟩, some "aa", some 2⟩ = true ∧
      inputFileHashKey ⟨rootPath, ⟨false, ["p"]⟩, some "aa", some 1⟩ =
        inputFileHashKey ⟨rootPath, ⟨false, ["q"]⟩, some "aa", some 2⟩) ∧
    (inputFileEq ⟨rootPath, ⟨false, ["p"]⟩, some "aa", some 1⟩
        ⟨rootPath, ⟨false, ["p"]⟩, none, none⟩ = true ∧
      inputFileHashKey ⟨rootPath, ⟨false, ["p"]⟩, some "aa", some 1⟩ ≠
        inputFileHashKey ⟨rootPath, ⟨false, ["p"]⟩, none, none⟩) := by
  refine ⟨⟨by decide, by decide⟩, ⟨by decide, by decide⟩⟩

/-- C8: the destination computed by the placement loop of
`from_experiment_files` is the output of the first rule whose output
differs from the input path, and the bare base name when no rule
changes the path. -/
theorem C8_placement_first_changed (rules : List (String → String)) (path : String) :
    placementDest rules path = specDestination rules path := by
  have aux : ∀ (rs : List (String → String)) (src : String),
      placementLoop rs src src = specDestination rs src := by
    intro rs
    induction rs with
    | nil => intro src; rfl
    | cons rl rest ih =>
      intro src
      show (if rl src ≠ src then rl src else placementLoop rest src (rl src)) = _
      unfold specDestination
      rw [List.find?_cons]
      cases hd : decide (rl src ≠ src) with
      | true =>
        have hch : rl src ≠ src := of_decide_eq_true hd
        rw [if_pos hch]
      | false =>
        have hch : ¬rl src ≠ src := of_decide_eq_false hd
        rw [if_neg hch]
        push_neg at hch
        rw [hch]
        exact ih src
  exact aux rules path

/-- C9: `update_srcdir` with `update_files` enabled and `with_ifsdata`
disabled keeps every ifsdata member in the resulting file set,
unchanged (same source root, relative path, checksum and size), whether
or not the rebase of the experiment-specific subset succeeds. -/
theorem C9_static_subset_preserved (fs : FS) (r : ExperimentFiles)
    (newRoots : List PyPath) (f : InputFile) (hf : f ∈ ifsdataFiles r) :
    f ∈ (updateSrcdir fs r newRoots true false).1.files := by
  cases hrb : rebaseLoop fs { r with src_dir := newRoots }
      (expFiles { r with src_dir := newRoots }) (ifsdataFiles { r with src_dir := newRoots }) with
  | ok nf =>
    have hfiles : (updateSrcdir fs r newRoots true false).1.files = nf := by
      unfold updateSrcdir
      simp [hrb]
    rw [hfiles]
    exact rebaseLoop_acc_mem fs _ _ _ _ hrb f hf
  | error e =>
    have hfiles : (updateSrcdir fs r newRoots true false).1.files = r.files := by
      unfold updateSrcdir
      simp [hrb]
    rw [hfiles]
    exact List.mem_of_mem_filter hf

/-- C9 witness: a concrete ifsdata file survives an update that changes
the roots. -/
theorem C9_static_subset_preserved_witness :
    (⟨⟨true, ["d", "ifsdata"]⟩, ⟨false, ["x"]⟩, some "cc", some 1⟩ : InputFile) ∈
      ifsdataFiles ⟨"e", [⟨true, ["a"]⟩],
        [⟨⟨true, ["d", "ifsdata"]⟩, ⟨false, ["x"]⟩, some "cc", some 1⟩]⟩ ∧
    (⟨⟨true, ["d", "ifsdata"]⟩, ⟨false, ["x"]⟩, some "cc", some 1⟩ : InputFile) ∈
      (updateSrcdir [] ⟨"e", [⟨true, ["a"]⟩],
        [⟨⟨true, ["d", "ifsdata"]⟩, ⟨false, ["x"]⟩, some "cc", some 1⟩]⟩
        [⟨true, ["b"]⟩] true false).1.files :=
  ⟨by decide, C9_static_subset_preserved [] _ [⟨true, ["b"]⟩] _ (by decide)⟩

/-- C10: a successful `from_dict` (either decoder) implies the caller's
dict had exactly one entry, is empty afterwards, and hence was
mutated. -/
theorem C10_decoders_consume_input :
    (∀ (fs : FS) (d : FileDict) (sd : Option PyPath) (v : Bool) (x : InputFile) (d' : FileDict),
        inputFileFromDict fs d sd v = (.ok x, d') → d.length = 1 ∧ d' = [] ∧ d' ≠ d) ∧
    (∀ (fs : FS) (d : ManifestDict) (v : Bool) (x : ExperimentFiles) (d' : ManifestDict),
        expFilesFromDict fs d v = (.ok x, d') → d.length = 1 ∧ d' = [] ∧ d' ≠ d) := by
  constructor
  · intro fs d sd v x d' h
    match d with
    | [] => simp [inputFileFromDict] at h
    | [a] =>
      have h2 : d' = [] := by
        have := fromDict_singleton_snd fs a sd v
        rw [h] at this
        exact this
      exact ⟨rfl, h2, by simp [h2]⟩
    | a :: b :: t =>
      have := fromDict_multi fs a b t sd v
      rw [h] at this
      cases this
  · intro fs d v x d' h
    match d with
    | [] => simp [expFilesFromDict] at h
    | [a] =>
      have h2 : d' = [] := by
        have := expFromDict_singleton_snd fs a v
        rw [h] at this
        exact this
      exact ⟨rfl, h2, by simp [h2]⟩
    | a :: b :: t =>
      have := expFromDict_multi fs a b t v
      rw [h] at this
      cases this

/-- C10 witness: a concrete successful decode of a singleton dict
leaves the dict empty. -/
theorem C10_decoders_consume_input_witness :
    inputFileFromDict [] [(⟨false, ["b"]⟩,
        { fullpath := some ⟨true, ["a", "b"]⟩, sha256sum := some "cc", size := some 4 })]
      (some ⟨true, ["a"]⟩) false =
      (.ok ⟨⟨true, ["a"]⟩, ⟨false, ["b"]⟩, some "cc", some 4⟩, []) ∧
    ([(⟨false, ["b"]⟩,
        { fullpath := some ⟨true, ["a", "b"]⟩, sha256sum := some "cc", size := some 4 })] :
        FileDict).length = 1 ∧
    ([] : FileDict) = [] ∧
    ([] : FileDict) ≠ [(⟨false, ["b"]⟩,
        { fullpath := some ⟨true, ["a", "b"]⟩, sha256sum := some "cc", size := some 4 })] :=
  ⟨rfl, C10_decoders_consume_input.1 [] _ (some ⟨true, ["a"]⟩) false
    ⟨⟨true, ["a"]⟩, ⟨false, ["b"]⟩, some "cc", some 4⟩ [] rfl⟩

/-- C6: either decoder raises a structural (`ManifestMalformed`)
failure exactly when the outer mapping does not contain exactly one
key: `popitem` on an empty dict raises, the leftover check raises on
two or more keys, and with exactly one key every possible error is a
non-structural one. -/
theorem C6_malformed_iff :
    (∀ (fs : FS) (d : FileDict) (sd : Option PyPath) (v : Bool),
        resultMalformed (inputFileFromDict fs d sd v).1 = true ↔ d.length ≠ 1) ∧
    (∀ (fs : FS) (d : ManifestDict) (v : Bool),
        resultMalformed (expFilesFromDict fs d v).1 = true ↔ d.length ≠ 1) := by
  constructor
  · intro fs d sd v
    match d with
    | [] => simp [inputFileFromDict, resultMalformed, PyErr.isManifestMalformed]
    | [a] =>
      simp only [List.length_singleton, ne_eq, not_true_eq_false, iff_false]
      cases hres : (inputFileFromDict fs [a] sd v).1 with
      | error e =>
        simp [resultMalformed, fromDict_singleton_error fs a sd v e hres]
      | ok f => simp [resultMalformed]
    | a :: b :: t =>
      rw [fromDict_multi fs a b t sd v]
      simp [resultMalformed, PyErr.isManifestMalformed]
  · intro fs d v
    match d with
    | [] => simp [expFilesFromDict, resultMalformed, PyErr.isManifestMalformed]
    | [a] =>
      simp only [List.length_singleton, ne_eq, not_true_eq_false, iff_false]
      have hred : (expFilesFromDict fs [a] v).1 =
          (match decodeFilesAux fs v (flattenSrcDirMap a.2) [] with
           | .error e => .error e
           | .ok fl => .ok ⟨a.1, a.2.map (·.1), fl⟩) := by
        unfold expFilesFromDict
        simp only [show ([a] : ManifestDict).getLast? = some a from rfl,
          show ([a] : ManifestDict).dropLast = ([] : ManifestDict) from rfl,
          List.isEmpty_nil, Bool.not_true, Bool.false_eq_true, if_false]
        cases hdec : decodeFilesAux fs v (flattenSrcDirMap a.2) [] <;> simp [hdec]
      rw [hred]
      cases hdec : decodeFilesAux fs v (flattenSrcDirMap a.2) [] with
      | error e =>
        simp [resultMalformed, decodeAux_not_malformed fs v _ _ e hdec]
      | ok fl => simp [resultMalformed]
    | a :: b :: t =>
      rw [expFromDict_multi fs a b t v]
      simp [resultMalformed, PyErr.isManifestMalformed]

/-- Rebuilding a path from a successful `relative_to` by joining. -/
theorem relative_to_div (p sd rel : PyPath) (h : p.relative_to sd = some rel) :
    sd.div rel = p := by
  unfold PyPath.relative_to at h
  split at h
  · rename_i hcond
    obtain ⟨habs, hpre⟩ := hcond
    obtain ⟨t, ht⟩ := List.isPrefixOf_iff_prefix.mp hpre
    cases h
    show (⟨sd.absolute, sd.segments ++ p.segments.drop sd.segments.length⟩ : PyPath) = p
    cases p with
    | mk pabs psegs =>
      dsimp only at habs ht ⊢
      rw [habs, ← ht, List.drop_left]
  · cases h

/-- `inputFileInit` with metadata computation succeeds on any path that
exists on the filesystem and lies under the source directory. -/
theorem init_of_lookup (fs : FS) (p sd rel : PyPath) (cn : String × Nat)
    (hrel : p.relative_to sd = some rel) (hlook : fsLookup fs p = some cn) :
    inputFileInit fs p (some sd) true = .ok ⟨sd, rel, some cn.1, some cn.2⟩ := by
  unfold inputFileInit
  dsimp only [Option.getD]
  rw [hrel]
  dsimp only
  rw [if_pos rfl, relative_to_div p sd rel hrel, hlook]

/-- Every glob result lies on the filesystem and under the globbed
source directory. -/
theorem globName_spec (fs : FS) (sd : PyPath) (nm : String) (p : PyPath)
    (hp : p ∈ globName fs sd nm) :
    ∃ rel cn, p.relative_to sd = some rel ∧ fsLookup fs p = some cn := by
  unfold globName at hp
  obtain ⟨e, he, hep⟩ := List.mem_map.mp hp
  obtain ⟨hefs, hpred⟩ := List.mem_filter.mp he
  subst hep
  cases hrel : e.path.relative_to sd with
  | none => rw [hrel] at hpred; cases hpred
  | some rel =>
    have hsome : (fs.find? fun e' => decide (e'.path = e.path)).isSome := by
      rw [List.find?_isSome]
      exact ⟨e, hefs, by simp⟩
    obtain ⟨e', he'⟩ := Option.isSome_iff_exists.mp hsome
    exact ⟨rel, (e'.sha256, e'.size), rfl, by unfold fsLookup; rw [he']; rfl⟩

/-- One step of the candidate scan when the candidate file builds
successfully. -/
theorem scanCandidates_cons (fs : FS) (cks : Option String) (c : PyPath × PyPath)
    (rest : List (PyPath × PyPath)) (cf : InputFile)
    (hinit : inputFileInit fs c.1 (some c.2) true = .ok cf) :
    scanCandidates fs cks (c :: rest) =
      if decide (cf.checksum = cks) = true then .ok (some cf)
      else scanCandidates fs cks rest := by
  conv_lhs => unfold scanCandidates
  rw [hinit]

/-- Scanning the candidates of a root with no checksum match falls
through to the remaining candidates. -/
theorem scanCandidates_skip (fs : FS) (cks : Option String) (sd : PyPath) (nm : String) :
    ∀ (l : List PyPath) (rest : List (PyPath × PyPath)),
      (∀ p ∈ l, p ∈ globName fs sd nm) →
      (∀ p ∈ l, checksumAt fs p ≠ cks) →
      scanCandidates fs cks ((l.map fun p => (p, sd)) ++ rest) =
        scanCandidates fs cks rest := by
  intro l
  induction l with
  | nil => intro rest _ _; rfl
  | cons p l' ih =>
    intro rest hglob hno
    obtain ⟨rel, cn, hrel, hlook⟩ := globName_spec fs sd nm p (hglob p (by simp))
    have hinit := init_of_lookup fs p sd rel cn hrel hlook
    have hner : some cn.1 ≠ cks := by
      have := hno p (by simp)
      unfold checksumAt at this
      rw [hlook] at this
      exact this
    show scanCandidates fs cks ((p, sd) :: ((l'.map fun p => (p, sd)) ++ rest)) = _
    rw [scanCandidates_cons fs cks (p, sd) _ _ hinit, if_neg (by simpa using hner)]
    exact ih rest (fun q hq => hglob q (by simp [hq])) (fun q hq => hno q (by simp [hq]))

/-- Scanning the candidates of a root that has a checksum match stops
inside that root with a matching candidate file. -/
theorem scanCandidates_hit (fs : FS) (cks : Option String) (sd : PyPath) (nm : String) :
    ∀ (l : List PyPath) (rest : List (PyPath × PyPath)),
      (∀ p ∈ l, p ∈ globName fs sd nm) →
      (∃ p ∈ l, checksumAt fs p = cks) →
      ∃ cf, scanCandidates fs cks ((l.map fun p => (p, sd)) ++ rest) = .ok (some cf) ∧
        cf.src_dir = sd ∧ cf.checksum = cks := by
  intro l
  induction l with
  | nil => intro rest _ hex; simp at hex
  | cons p l' ih =>
    intro rest hglob hex
    obtain ⟨rel, cn, hrel, hlook⟩ := globName_spec fs sd nm p (hglob p (by simp))
    have hinit := init_of_lookup fs p sd rel cn hrel hlook
    by_cases hcp : checksumAt fs p = cks
    · have hcn : some cn.1 = cks := by
        unfold checksumAt at hcp
        rw [hlook] at hcp
        exact hcp
      refine ⟨⟨sd, rel, some cn.1, some cn.2⟩, ?_, rfl, hcn⟩
      show scanCandidates fs cks ((p, sd) :: ((l'.map fun p => (p, sd)) ++ rest)) = _
      rw [scanCandidates_cons fs cks (p, sd) _ _ hinit, if_pos (by simpa using hcn)]
    · have hex' : ∃ q ∈ l', checksumAt fs q = cks := by
        obtain ⟨q, hq, hcq⟩ := hex
        rcases List.mem_cons.mp hq with hq1 | hq2
        · exact absurd (hq1 ▸ hcq) hcp
        · exact ⟨q, hq2, hcq⟩
      obtain ⟨cf, hscan, hsd, hcf⟩ := ih rest (fun q hq => hglob q (by simp [hq])) hex'
      refine ⟨cf, ?_, hsd, hcf⟩
      have hcn : some cn.1 ≠ cks := by
        unfold checksumAt at hcp
        rw [hlook] at hcp
        exact hcp
      show scanCandidates fs cks ((p, sd) :: ((l'.map fun p => (p, sd)) ++ rest)) = _
      rw [scanCandidates_cons fs cks (p, sd) _ _ hinit, if_neg (by simpa using hcn)]
      exact hscan

/-- Scanning the full candidate list stops at the first root (in
configured order) that has a checksum match, returning a candidate
rebased to that root. -/
theorem scan_roots (fs : FS) (f : InputFile) :
    ∀ (roots : List PyPath) (rt : PyPath),
      roots.find? (hasChecksumMatch fs f) = some rt →
      ∃ cf, scanCandidates fs f.checksum (candidatesIn fs roots f.path.name) = .ok (some cf) ∧
        cf.src_dir = rt ∧ cf.checksum = f.checksum := by
  intro roots
  induction roots with
  | nil => intro rt h; cases h
  | cons sd roots' ih =>
    intro rt h
    rw [List.find?_cons] at h
    have hflat : candidatesIn fs (sd :: roots') f.path.name =
        ((globName fs sd f.path.name).map fun p => (p, sd)) ++
          candidatesIn fs roots' f.path.name := by
      unfold candidatesIn
      rw [List.flatMap_cons]
    cases hm : hasChecksumMatch fs f sd with
    | true =>
      rw [hm] at h
      cases h
      have hex : ∃ p ∈ globName fs sd f.path.name, checksumAt fs p = f.checksum := by
        unfold hasChecksumMatch at hm
        obtain ⟨p, hp, hc⟩ := List.any_eq_true.mp hm
        exact ⟨p, hp, of_decide_eq_true hc⟩
      rw [hflat]
      exact scanCandidates_hit fs f.checksum sd f.path.name _ _ (fun p hp => hp) hex
    | false =>
      rw [hm] at h
      have hno : ∀ p ∈ globName fs sd f.path.name, checksumAt fs p ≠ f.checksum := by
        unfold hasChecksumMatch at hm
        intro p hp
        have := List.any_eq_false.mp hm p hp
        simpa using this
      rw [hflat, scanCandidates_skip fs f.checksum sd f.path.name _ _ (fun p hp => hp) hno]
      exact ih rt h

/-- Scanning candidates from roots none of which has a checksum match
returns no candidate (and raises nothing). -/
theorem scan_none (fs : FS) (f : InputFile) :
    ∀ (roots : List PyPath),
      (∀ sd ∈ roots, hasChecksumMatch fs f sd = false) →
      scanCandidates fs f.checksum (candidatesIn fs roots f.path.name) = .ok none := by
  intro roots
  induction roots with
  | nil => intro _; rfl
  | cons sd roots' ih =>
    intro hno
    have hflat : candidatesIn fs (sd :: roots') f.path.name =
        ((globName fs sd f.path.name).map fun p => (p, sd)) ++
          candidatesIn fs roots' f.path.name := by
      unfold candidatesIn
      rw [List.flatMap_cons]
    have hnosd : ∀ p ∈ globName fs sd f.path.name, checksumAt fs p ≠ f.checksum := by
      have := hno sd (by simp)
      unfold hasChecksumMatch at this
      intro p hp
      simpa using List.any_eq_false.mp this p hp
    rw [hflat, scanCandidates_skip fs f.checksum sd f.path.name _ _ (fun p hp => hp) hnosd]
    exact ih (fun sd' h' => hno sd' (by simp [h']))

/-- The rebase of `_input_file_in_src_dir` with verification either
succeeds or raises exactly `notFound`. -/
theorem rebase_ok_or_notFound (fs : FS) (r : ExperimentFiles) (f : InputFile) :
    (∃ g, inputFileInSrcDir fs r f true = .ok g) ∨
      inputFileInSrcDir fs r f true = .error .notFound := by
  unfold inputFileInSrcDir
  cases he : r.src_dir.isEmpty with
  | true => exact .inl ⟨f, rfl⟩
  | false =>
    rw [if_neg (by simp)]
    cases hfind : r.src_dir.find? (hasChecksumMatch fs f) with
    | some rt =>
      obtain ⟨cf, hscan, _, _⟩ := scan_roots fs f r.src_dir rt hfind
      rw [hscan]
      exact .inl ⟨cf, rfl⟩
    | none =>
      have hno : ∀ sd ∈ r.src_dir, hasChecksumMatch fs f sd = false := by
        intro sd hsd
        have := List.find?_eq_none.mp hfind sd hsd
        simpa using this
      rw [scan_none fs f r.src_dir hno]
      exact .inr rfl

/-- With non-empty roots and no checksum match anywhere, the rebase
raises `notFound`. -/
theorem rebase_notFound (fs : FS) (r : ExperimentFiles) (f : InputFile)
    (hne : r.src_dir ≠ [])
    (hno : ∀ sd ∈ r.src_dir, hasChecksumMatch fs f sd = false) :
    inputFileInSrcDir fs r f true = .error .notFound := by
  unfold inputFileInSrcDir
  rw [if_neg (by simpa [List.isEmpty_iff] using hne), scan_none fs f r.src_dir hno]
  rfl

/-- A `rebaseLoop` over a list containing a file whose rebase raises
`notFound` raises `notFound` itself. -/
theorem rebaseLoop_error (fs : FS) (r : ExperimentFiles) :
    ∀ (l acc : List InputFile) (f : InputFile), f ∈ l →
      inputFileInSrcDir fs r f true = .error .notFound →
      rebaseLoop fs r l acc = .error .notFound := by
  intro l
  induction l with
  | nil => intro acc f hf; cases hf
  | cons g rest ih =>
    intro acc f hf herr
    rcases List.mem_cons.mp hf with h1 | h2
    · subst h1
      unfold rebaseLoop
      rw [herr]
    · rcases rebase_ok_or_notFound fs r g with ⟨g', hg'⟩ | hgerr
      · unfold rebaseLoop
        rw [hg']
        exact ih _ f h2 herr
      · unfold rebaseLoop
        rw [hgerr]

/-- The per-file manifest round trip, verification disabled: the entry
written by `to_dict` decodes to the same file up to falsy-metadata
normalisation. -/
theorem fromDict_to_dict (fs : FS) (f : InputFile) (h : f.path.absolute = false) :
    inputFileFromDict fs [f.to_dict] (some f.src_dir) false = (.ok (normFalsy f), []) := by
  unfold inputFileFromDict
  simp only [show ([f.to_dict] : FileDict).getLast? = some f.to_dict from rfl,
    show ([f.to_dict] : FileDict).dropLast = ([] : FileDict) from rfl,
    List.isEmpty_nil, Bool.not_true, Bool.false_eq_true, if_false]
  have hfp : (InputFile.to_dict f).2.fullpath = some f.fullpath := rfl
  rw [hfp]
  have hinit : inputFileInit fs f.fullpath (some f.src_dir) false =
      .ok ⟨f.src_dir, f.path, none, none⟩ := by
    unfold inputFileInit
    have hrel : f.fullpath.relative_to f.src_dir = some f.path := by
      unfold InputFile.fullpath
      exact div_relative_to f.src_dir f.path h
    simp [hrel]
  dsimp only
  rw [hinit]
  rfl

/-- `decodeEntry` inverts `entryOf` up to falsy normalisation. -/
theorem decodeEntry_entryOf (f : InputFile) (h : f.path.absolute = false) :
    decodeEntry (entryOf f) = normFalsy f := by
  unfold decodeEntry entryOf normFalsy
  have hfp : (InputFile.to_dict f).2.fullpath = some f.fullpath := rfl
  have hrel : f.fullpath.relative_to f.src_dir = some f.path := by
    unfold InputFile.fullpath
    exact div_relative_to f.src_dir f.path h
  simp [hfp, hrel]
  exact ⟨rfl, rfl⟩

/-- Falsy normalisation does not change the full path. -/
theorem normFalsy_fullpath (f : InputFile) : (normFalsy f).fullpath = f.fullpath := rfl

/-- Falsy normalisation does not change checksum truthiness. -/
theorem normFalsy_checksum_truthy (f : InputFile) :
    strTruthy (normFalsy f).checksum = strTruthy f.checksum := by
  unfold normFalsy
  cases hc : strTruthy f.checksum with
  | true => simp [hc]
  | false => simp [hc, strTruthy]

/-- Falsy normalisation does not change the Python hash key. -/
theorem hashKey_norm (f : InputFile) :
    inputFileHashKey (normFalsy f) = inputFileHashKey f := by
  unfold inputFileHashKey
  rw [normFalsy_checksum_truthy, normFalsy_fullpath]
  cases hc : strTruthy f.checksum with
  | false => simp
  | true => simp [normFalsy, hc]

/-- Falsy normalisation does not change `__eq__`. -/
theorem inputFileEq_norm (a b : InputFile) :
    inputFileEq (normFalsy a) (normFalsy b) = inputFileEq a b := by
  unfold inputFileEq
  rw [normFalsy_checksum_truthy, normFalsy_checksum_truthy,
    normFalsy_fullpath, normFalsy_fullpath]
  cases ha : strTruthy a.checksum with
  | false => simp
  | true =>
    cases hb : strTruthy b.checksum with
    | false => simp
    | true => simp [normFalsy, ha, hb]

/-- Falsy normalisation does not change hash-set identity. -/
theorem sameSetElem_norm (a b : InputFile) :
    sameSetElem (normFalsy a) (normFalsy b) = sameSetElem a b := by
  unfold sameSetElem
  rw [hashKey_norm, hashKey_norm, inputFileEq_norm]

/-- Hash-set identity is symmetric. -/
theorem sameSetElem_symm (a b : InputFile) : sameSetElem a b = sameSetElem b a := by
  unfold sameSetElem inputFileEq
  cases ha : strTruthy a.checksum <;> cases hb : strTruthy b.checksum <;>
    simp [ha, hb, eq_comm, Bool.and_comm]

/-- Inserting an element that collides with nothing in the set appends
it. -/
theorem setAdd_append_of (s : List InputFile) (f : InputFile)
    (h : ∀ g ∈ s, sameSetElem g f = false) : setAdd s f = s ++ [f] := by
  unfold setAdd
  rw [if_neg]
  intro hany
  obtain ⟨g, hg, hgf⟩ := List.any_eq_true.mp hany
  rw [h g hg] at hgf
  cases hgf

/-- Flattening a manifest layer distributes over append. -/
theorem flattenSrcDirMap_append (m₁ m₂ : SrcDirMap) :
    flattenSrcDirMap (m₁ ++ m₂) = flattenSrcDirMap m₁ ++ flattenSrcDirMap m₂ := by
  unfold flattenSrcDirMap
  rw [List.flatMap_append]

/-- Flattening an entry followed by the rest. -/
theorem flattenSrcDirMap_cons (e : PyPath × FileDict) (m : SrcDirMap) :
    flattenSrcDirMap (e :: m) = (e.2.map fun kv => (e.1, kv)) ++ flattenSrcDirMap m := by
  unfold flattenSrcDirMap
  rw [List.flatMap_cons]

/-- `dict.update` with a fresh key appends the entry. -/
theorem updateFileDict_append (m : FileDict) (kv : PyPath × FileMeta)
    (h : ∀ x ∈ m, x.1 ≠ kv.1) : updateFileDict m kv = m ++ [kv] := by
  unfold updateFileDict
  rw [if_neg]
  intro hany
  obtain ⟨x, hx, hxk⟩ := List.any_eq_true.mp hany
  exact h x hx (of_decide_eq_true hxk)

/-- Updating entries whose key never matches is the identity. -/
theorem update_map_id (sd : PyPath) (kv : PyPath × FileMeta) :
    ∀ (m : SrcDirMap), (∀ e ∈ m, e.1 ≠ sd) →
      (m.map fun e => if e.1 = sd then (e.1, updateFileDict e.2 kv) else e) = m := by
  intro m
  induction m with
  | nil => intro _; rfl
  | cons e m' ih =>
    intro h
    simp only [List.map_cons]
    rw [if_neg (h e (by simp)), ih (fun x hx => h x (by simp [hx]))]

/-- Key list of an updated middle layer: unchanged when the root is
present, the root appended otherwise. -/
theorem update_keys (m : SrcDirMap) (sd : PyPath) (kv : PyPath × FileMeta) :
    (updateSrcDirMap m sd kv).map (·.1) =
      if m.any (fun e => decide (e.1 = sd)) = true then m.map (·.1)
      else m.map (·.1) ++ [sd] := by
  unfold updateSrcDirMap
  split
  · rw [List.map_map]
    refine List.map_congr_left ?_
    intro e _
    by_cases hesd : e.1 = sd <;> simp [hesd]
  · simp

/-- Flattened view of the map-branch of `updateSrcDirMap` (root
present, keys distinct, entry fresh): the new entry moves to the end,
up to permutation. -/
theorem flatten_update_map (sd : PyPath) (kv : PyPath × FileMeta) :
    ∀ (m : SrcDirMap),
      (m.map (·.1)).Nodup →
      (∀ t ∈ flattenSrcDirMap m, ¬(t.1 = sd ∧ t.2.1 = kv.1)) →
      m.any (fun e => decide (e.1 = sd)) = true →
      List.Perm
        (flattenSrcDirMap (m.map fun e => if e.1 = sd then (e.1, updateFileDict e.2 kv) else e))
        (flattenSrcDirMap m ++ [(sd, kv)]) := by
  intro m
  induction m with
  | nil => intro _ _ hany; cases hany
  | cons e m' ih =>
    intro hnd hfresh hany
    have hnd' : (e.1 ∉ m'.map (·.1)) ∧ (m'.map (·.1)).Nodup := by
      rw [List.map_cons, List.nodup_cons] at hnd
      exact hnd
    by_cases hesd : e.1 = sd
    · have hm' : ∀ x ∈ m', x.1 ≠ sd := by
        intro x hx hxsd
        exact hnd'.1 (by rw [hesd, ← hxsd]; exact List.mem_map_of_mem _ hx)
      have hkv : ∀ x ∈ e.2, x.1 ≠ kv.1 := by
        intro x hx hxk
        refine hfresh (e.1, x) ?_ ⟨hesd, hxk⟩
        rw [flattenSrcDirMap_cons]
        exact List.mem_append_left _ (List.mem_map_of_mem _ hx)
      simp only [List.map_cons]
      rw [if_pos hesd, update_map_id sd kv m' hm']
      rw [flattenSrcDirMap_cons, flattenSrcDirMap_cons,
        updateFileDict_append e.2 kv hkv, List.map_append]
      rw [hesd]
      simp only [List.append_assoc]
      exact List.Perm.append_left _ List.perm_append_comm
    · have hany' : m'.any (fun x => decide (x.1 = sd)) = true := by
        rcases List.any_eq_true.mp hany with ⟨x, hx, hxd⟩
        rcases List.mem_cons.mp hx with h1 | h2
        · exact absurd (of_decide_eq_true (h1 ▸ hxd)) hesd
        · exact List.any_eq_true.mpr ⟨x, h2, hxd⟩
      have hfresh' : ∀ t ∈ flattenSrcDirMap m', ¬(t.1 = sd ∧ t.2.1 = kv.1) := by
        intro t ht
        refine hfresh t ?_
        rw [flattenSrcDirMap_cons]
        exact List.mem_append_right _ ht
      simp only [List.map_cons]
      rw [if_neg hesd, flattenSrcDirMap_cons, flattenSrcDirMap_cons]
      simp only [List.append_assoc]
      exact List.Perm.append_left _ (ih hnd'.2 hfresh' hany')

/-- Flattened view of `updateSrcDirMap`: the new entry lands at the
end, up to permutation, provided keys are distinct and the entry is
fresh. -/
theorem flatten_update (m : SrcDirMap) (sd : PyPath) (kv : PyPath × FileMeta)
    (hnd : (m.map (·.1)).Nodup)
    (hfresh : ∀ t ∈ flattenSrcDirMap m, ¬(t.1 = sd ∧ t.2.1 = kv.1)) :
    List.Perm (flattenSrcDirMap (updateSrcDirMap m sd kv))
      (flattenSrcDirMap m ++ [(sd, kv)]) := by
  unfold updateSrcDirMap
  cases hany : m.any (fun e => decide (e.1 = sd)) with
  | true =>
    rw [if_pos rfl]
    exact flatten_update_map sd kv m hnd hfresh hany
  | false =>
    rw [if_neg (by simp), flattenSrcDirMap_append]
    exact List.Perm.refl _

/-- The key list of the grouping fold, over a generalised
accumulator. -/
theorem groupFiles_keys_aux (files : List InputFile) :
    ∀ (acc : SrcDirMap),
      (files.foldl (fun a f => updateSrcDirMap a f.src_dir f.to_dict) acc).map (·.1) =
        files.foldl
          (fun ks f => if ks.any (fun sd => decide (sd = f.src_dir)) = true then ks
                       else ks ++ [f.src_dir]) (acc.map (·.1)) := by
  induction files with
  | nil => intro acc; rfl
  | cons f rest ih =>
    intro acc
    simp only [List.foldl_cons]
    rw [ih]
    have hcond : (List.any acc fun e => decide (e.1 = f.src_dir)) =
        ((acc.map (·.1)).any fun sd => decide (sd = f.src_dir)) := by
      induction acc with
      | nil => rfl
      | cons e m ihc => simp only [List.any_cons, List.map_cons, ihc]
    have hkeys : (updateSrcDirMap acc f.src_dir f.to_dict).map (·.1) =
        if (acc.map (·.1)).any (fun sd => decide (sd = f.src_dir)) = true then acc.map (·.1)
        else acc.map (·.1) ++ [f.src_dir] := by
      rw [update_keys, hcond]
    rw [hkeys]

/-- The middle-layer keys of `to_dict` are the source roots owning
files, in first-appearance order. -/
theorem groupFiles_keys (files : List InputFile) :
    (groupFiles files).map (·.1) = rootsInOrder files := by
  unfold groupFiles rootsInOrder
  simpa using groupFiles_keys_aux files []

/-- The grouping fold never duplicates a middle-layer key. -/
theorem groupFiles_keys_nodup (files : List InputFile) :
    ∀ (acc : SrcDirMap), ((acc.map (·.1)).Nodup) →
      ((files.foldl (fun a f => updateSrcDirMap a f.src_dir f.to_dict) acc).map (·.1)).Nodup := by
  induction files with
  | nil => intro acc h; exact h
  | cons f rest ih =>
    intro acc h
    simp only [List.foldl_cons]
    refine ih _ ?_
    rw [update_keys]
    cases hany : acc.any (fun e => decide (e.1 = f.src_dir)) with
    | true => simpa [hany] using h
    | false =>
      rw [if_neg (by simp [hany])]
      have hnotin : f.src_dir ∉ acc.map (·.1) := by
        intro hmem
        obtain ⟨e, he, hee⟩ := List.mem_map.mp hmem
        have := List.any_eq_false.mp hany e he
        simp [hee] at this
      simp [List.nodup_append, h, hnotin]

/-- Flattening the grouped manifest of a registry whose members have
pairwise distinct `(src_dir, path)` recovers the member entries, up to
permutation. -/
theorem groupFiles_flatten_perm :
    ∀ (files : List InputFile),
      files.Pairwise (fun a b => ¬(a.src_dir = b.src_dir ∧ a.path = b.path)) →
      List.Perm (flattenSrcDirMap (groupFiles files)) (files.map entryOf) := by
  intro files
  induction files using List.reverseRecOn with
  | nil => intro _; exact List.Perm.refl _
  | append_singleton init f ih =>
    intro hpw
    rw [List.pairwise_append] at hpw
    have hinit := hpw.1
    have hcross : ∀ a ∈ init, ¬(a.src_dir = f.src_dir ∧ a.path = f.path) :=
      fun a ha => hpw.2.2 a ha f (by simp)
    have hgrp : groupFiles (init ++ [f]) =
        updateSrcDirMap (groupFiles init) f.src_dir f.to_dict := by
      unfold groupFiles
      rw [List.foldl_append]
      rfl
    have hfresh : ∀ t ∈ flattenSrcDirMap (groupFiles init),
        ¬(t.1 = f.src_dir ∧ t.2.1 = f.path) := by
      intro t ht hcontra
      obtain ⟨a, ha, hae⟩ := List.mem_map.mp ((ih hinit).mem_iff.mp ht)
      rw [← hae] at hcontra
      exact hcross a ha ⟨hcontra.1, hcontra.2⟩
    rw [hgrp]
    refine (flatten_update (groupFiles init) f.src_dir f.to_dict
      (groupFiles_keys_nodup init [] (by simp)) hfresh).trans ?_
    rw [List.map_append]
    exact List.Perm.append (ih hinit) (List.Perm.refl _)

/-- The decode comprehension, when every entry decodes successfully and
no two decoded files collide in the set, appends all decoded files in
order. -/
theorem decodeAux_all_ok (fs : FS) :
    ∀ (pairs : List (PyPath × PyPath × FileMeta)) (acc : List InputFile),
      (∀ t ∈ pairs, (inputFileFromDict fs [t.2] (some t.1) false).1 = .ok (decodeEntry t)) →
      (∀ t ∈ pairs, ∀ g ∈ acc, sameSetElem g (decodeEntry t) = false) →
      pairs.Pairwise (fun a b => sameSetElem (decodeEntry a) (decodeEntry b) = false) →
      decodeFilesAux fs false pairs acc = .ok (acc ++ pairs.map decodeEntry) := by
  intro pairs
  induction pairs with
  | nil => intro acc _ _ _; simp [decodeFilesAux]
  | cons t rest ih =>
    intro acc hok hacc hpw
    have hpw' := List.pairwise_cons.mp hpw
    have hacc' : ∀ t' ∈ rest, ∀ g ∈ acc ++ [decodeEntry t],
        sameSetElem g (decodeEntry t') = false := by
      intro t' ht' g hg
      rcases List.mem_append.mp hg with h1 | h2
      · exact hacc t' (by simp [ht']) g h1
      · have hgt : g = decodeEntry t := by simpa using h2
        rw [hgt]
        exact hpw'.1 t' ht'
    unfold decodeFilesAux
    rw [hok t (by simp)]
    dsimp only
    rw [setAdd_append_of acc (decodeEntry t) (fun g hg => hacc t (by simp) g hg)]
    rw [ih (acc ++ [decodeEntry t]) (fun t' ht' => hok t' (by simp [ht'])) hacc' hpw'.2]
    simp

/-- C5: for a candidate file with a checksum, when some configured
source root has a name-and-checksum match, the rebase performed by the
add operations (`_input_file_in_src_dir`, called by `add_file` and
`add_input_file`) resolves the tracked file to the first such root in
configured order. -/
theorem C5_rebase_first_matching_root (fs : FS) (r : ExperimentFiles) (f : InputFile)
    (c : String) (rt : PyPath) (_hcks : f.checksum = some c)
    (hfind : r.src_dir.find? (hasChecksumMatch fs f) = some rt) :
    ∃ cf, addInputFile fs r f true = .ok { r with files := setAdd r.files cf } ∧
      cf.src_dir = rt ∧ cf.checksum = f.checksum := by
  obtain ⟨cf, hscan, hsd, hcf⟩ := scan_roots fs f r.src_dir rt hfind
  have hne : r.src_dir.isEmpty = false := by
    cases hsrc : r.src_dir with
    | nil => rw [hsrc] at hfind; cases hfind
    | cons a l => rfl
  have hreb : inputFileInSrcDir fs r f true = .ok cf := by
    unfold inputFileInSrcDir
    rw [if_neg (by simp [hne]), hscan]
  refine ⟨cf, ?_, hsd, hcf⟩
  unfold addInputFile
  rw [hreb]

/-- C5 witness: two files named `data.grib` with identical checksum
under roots A and B, A listed first — the add operations rebase to
root A; the last conjunct runs `add_file("/orig/data.grib")` itself and
observes the tracked file resolved under root A. -/
theorem C5_rebase_first_matching_root_witness :
    (⟨rootPath, ⟨false, ["orig", "data.grib"]⟩, some "c1", some 5⟩ : InputFile).checksum =
      some "c1" ∧
    ([⟨true, ["A"]⟩, ⟨true, ["B"]⟩] : List PyPath).find?
      (hasChecksumMatch
        [⟨⟨true, ["A", "data.grib"]⟩, "c1", 5⟩, ⟨⟨true, ["B", "data.grib"]⟩, "c1", 5⟩,
          ⟨⟨true, ["orig", "data.grib"]⟩, "c1", 5⟩]
        ⟨rootPath, ⟨false, ["orig", "data.grib"]⟩, some "c1", some 5⟩) =
      some ⟨true, ["A"]⟩ ∧
    (∃ cf,
      addInputFile
          [⟨⟨true, ["A", "data.grib"]⟩, "c1", 5⟩, ⟨⟨true, ["B", "data.grib"]⟩, "c1", 5⟩,
            ⟨⟨true, ["orig", "data.grib"]⟩, "c1", 5⟩]
          ⟨"e", [⟨true, ["A"]⟩, ⟨true, ["B"]⟩], []⟩
          ⟨rootPath, ⟨false, ["orig", "data.grib"]⟩, some "c1", some 5⟩ true =
        .ok ⟨"e", [⟨true, ["A"]⟩, ⟨true, ["B"]⟩], setAdd [] cf⟩ ∧
      cf.src_dir = ⟨true, ["A"]⟩ ∧ cf.checksum = some "c1") ∧
    addFile
        [⟨⟨true, ["A", "data.grib"]⟩, "c1", 5⟩, ⟨⟨true, ["B", "data.grib"]⟩, "c1", 5⟩,
          ⟨⟨true, ["orig", "data.grib"]⟩, "c1", 5⟩]
        ⟨"e", [⟨true, ["A"]⟩, ⟨true, ["B"]⟩], []⟩ ⟨true, ["orig", "data.grib"]⟩ true =
      .ok ⟨"e", [⟨true, ["A"]⟩, ⟨true, ["B"]⟩],
        [⟨⟨true, ["A"]⟩, ⟨false, ["data.grib"]⟩, some "c1", some 5⟩]⟩ :=
  ⟨rfl, by decide,
    C5_rebase_first_matching_root
      [⟨⟨true, ["A", "data.grib"]⟩, "c1", 5⟩, ⟨⟨true, ["B", "data.grib"]⟩, "c1", 5⟩,
        ⟨⟨true, ["orig", "data.grib"]⟩, "c1", 5⟩]
      ⟨"e", [⟨true, ["A"]⟩, ⟨true, ["B"]⟩], []⟩
      ⟨rootPath, ⟨false, ["orig", "data.grib"]⟩, some "c1", some 5⟩
      "c1" ⟨true, ["A"]⟩ rfl (by decide), rfl⟩

/-- C1 amended: the registry manifest round trip with verification
disabled yields, for every registry whose members have relative paths,
satisfy the hash-set invariant (pairwise distinct set identity) and do
not share a `(src_dir, path)` pair: the identical experiment id; source
roots equal to exactly those roots owning at least one file, in
first-appearance order of the file set (roots owning no file are
dropped); and the same file set up to falsy-metadata normalisation
(empty checksum and zero size decode as absent). -/
theorem C1_manifest_roundtrip (fs : FS) (r : ExperimentFiles)
    (hrel : ∀ f ∈ r.files, f.path.absolute = false)
    (hset : r.files.Pairwise (fun a b => sameSetElem a b = false))
    (hkeys : r.files.Pairwise (fun a b => ¬(a.src_dir = b.src_dir ∧ a.path = b.path))) :
    ∃ files', expFilesFromDict fs r.to_dict false =
        (.ok ⟨r.exp_id, rootsInOrder r.files, files'⟩, []) ∧
      List.Perm files' (r.files.map normFalsy) := by
  have hperm := groupFiles_flatten_perm r.files hkeys
  have hok : ∀ t ∈ flattenSrcDirMap (groupFiles r.files),
      (inputFileFromDict fs [t.2] (some t.1) false).1 = .ok (decodeEntry t) := by
    intro t ht
    obtain ⟨a, ha, hae⟩ := List.mem_map.mp (hperm.mem_iff.mp ht)
    rw [← hae]
    have h1 : (inputFileFromDict fs [(entryOf a).2] (some (entryOf a).1) false).1 =
        .ok (normFalsy a) := by
      show (inputFileFromDict fs [a.to_dict] (some a.src_dir) false).1 = _
      rw [fromDict_to_dict fs a (hrel a ha)]
    rw [h1, decodeEntry_entryOf a (hrel a ha)]
  have hpwfiles : r.files.Pairwise
      (fun a b => sameSetElem (decodeEntry (entryOf a)) (decodeEntry (entryOf b)) = false) :=
    hset.imp_of_mem (fun {a b} ha hb hab => by
      rw [decodeEntry_entryOf a (hrel a ha), decodeEntry_entryOf b (hrel b hb),
        sameSetElem_norm]
      exact hab)
  have hpwpairs : (flattenSrcDirMap (groupFiles r.files)).Pairwise
      (fun a b => sameSetElem (decodeEntry a) (decodeEntry b) = false) := by
    have hsymm : ∀ {x y : PyPath × PyPath × FileMeta},
        sameSetElem (decodeEntry x) (decodeEntry y) = false →
        sameSetElem (decodeEntry y) (decodeEntry x) = false := by
      intro x y hx
      rw [sameSetElem_symm]
      exact hx
    exact (hperm.pairwise_iff hsymm).mpr (List.pairwise_map.mpr hpwfiles)
  have hdec := decodeAux_all_ok fs (flattenSrcDirMap (groupFiles r.files)) []
    hok (by intro t _ g hg; cases hg) hpwpairs
  refine ⟨(flattenSrcDirMap (groupFiles r.files)).map decodeEntry, ?_, ?_⟩
  · show expFilesFromDict fs [(r.exp_id, groupFiles r.files)] false = _
    unfold expFilesFromDict
    simp only [show ([(r.exp_id, groupFiles r.files)] : ManifestDict).getLast? =
        some (r.exp_id, groupFiles r.files) from rfl,
      show ([(r.exp_id, groupFiles r.files)] : ManifestDict).dropLast =
        ([] : ManifestDict) from rfl,
      List.isEmpty_nil, Bool.not_true, Bool.false_eq_true, if_false]
    rw [hdec]
    rw [groupFiles_keys]
    simp
  · have hmapped := hperm.map decodeEntry
    rw [List.map_map] at hmapped
    have heq : r.files.map (decodeEntry ∘ entryOf) = r.files.map normFalsy :=
      List.map_congr_left (fun a ha => decodeEntry_entryOf a (hrel a ha))
    rw [heq] at hmapped
    exact hmapped

/-- C1 witness: the amended round trip at a concrete one-file
registry. -/
theorem C1_manifest_roundtrip_witness :
    (∀ f ∈ ([⟨⟨true, ["a"]⟩, ⟨false, ["b"]⟩, some "aa", some 3⟩] : List InputFile),
      f.path.absolute = false) ∧
    (∃ files',
      expFilesFromDict []
          (ExperimentFiles.to_dict
            ⟨"exp", [⟨true, ["a"]⟩], [⟨⟨true, ["a"]⟩, ⟨false, ["b"]⟩, some "aa", some 3⟩]⟩)
          false =
        (.ok ⟨"exp",
          rootsInOrder [⟨⟨true, ["a"]⟩, ⟨false, ["b"]⟩, some "aa", some 3⟩], files'⟩, []) ∧
      List.Perm files'
        (([⟨⟨true, ["a"]⟩, ⟨false, ["b"]⟩, some "aa", some 3⟩] :
          List InputFile).map normFalsy)) :=
  ⟨by decide,
    C1_manifest_roundtrip []
      ⟨"exp", [⟨true, ["a"]⟩], [⟨⟨true, ["a"]⟩, ⟨false, ["b"]⟩, some "aa", some 3⟩]⟩
      (by decide) (by simp) (by simp)⟩

/-- C4 amended: with a non-empty new root list, `update_srcdir` with
`update_files` enabled and `with_ifsdata` disabled raises `notFound`
when some experiment-specific member has no checksum-matching candidate
under the new roots; the file set is then exactly as before the call
(the unresolvable file is not dropped), but the source roots have
already been replaced by the new roots — the roots update is committed
even on failure. -/
theorem C4_notFound_keeps_files (fs : FS) (r : ExperimentFiles)
    (newRoots : List PyPath) (f : InputFile)
    (hroots : newRoots ≠ [])
    (hf : f ∈ expFiles r)
    (hno : ∀ sd ∈ newRoots, hasChecksumMatch fs f sd = false) :
    updateSrcdir fs r newRoots true false =
      ({ r with src_dir := newRoots }, some .notFound) := by
  have herr : inputFileInSrcDir fs { r with src_dir := newRoots } f true =
      .error .notFound :=
    rebase_notFound fs { r with src_dir := newRoots } f hroots hno
  have hloop : rebaseLoop fs { r with src_dir := newRoots }
      (expFiles { r with src_dir := newRoots })
      (ifsdataFiles { r with src_dir := newRoots }) = .error .notFound :=
    rebaseLoop_error fs { r with src_dir := newRoots } _ _ f hf herr
  unfold updateSrcdir
  simp [hloop]

/-- C4 witness: the amended statement at a concrete registry — the
rebase fails with `notFound`, the tracked file is kept, and the roots
are the new ones. -/
theorem C4_notFound_keeps_files_witness :
    ([⟨true, ["b"]⟩] : List PyPath) ≠ [] ∧
    (⟨⟨true, ["a"]⟩, ⟨false, ["f"]⟩, some "aa", some 1⟩ : InputFile) ∈
      expFiles ⟨"e", [⟨true, ["a"]⟩], [⟨⟨true, ["a"]⟩, ⟨false, ["f"]⟩, some "aa", some 1⟩]⟩ ∧
    (∀ sd ∈ ([⟨true, ["b"]⟩] : List PyPath),
      hasChecksumMatch [⟨⟨true, ["a", "f"]⟩, "aa", 1⟩]
        ⟨⟨true, ["a"]⟩, ⟨false, ["f"]⟩, some "aa", some 1⟩ sd = false) ∧
    updateSrcdir [⟨⟨true, ["a", "f"]⟩, "aa", 1⟩]
        ⟨"e", [⟨true, ["a"]⟩], [⟨⟨true, ["a"]⟩, ⟨false, ["f"]⟩, some "aa", some 1⟩]⟩
        [⟨true, ["b"]⟩] true false =
      (⟨"e", [⟨true, ["b"]⟩], [⟨⟨true, ["a"]⟩, ⟨false, ["f"]⟩, some "aa", some 1⟩]⟩,
        some .notFound) :=
  ⟨by decide, by decide, by decide,
    C4_notFound_keeps_files [⟨⟨true, ["a", "f"]⟩, "aa", 1⟩]
      ⟨"e", [⟨true, ["a"]⟩], [⟨⟨true, ["a"]⟩, ⟨false, ["f"]⟩, some "aa", some 1⟩]⟩
      [⟨true, ["b"]⟩] ⟨⟨true, ["a"]⟩, ⟨false, ["f"]⟩, some "aa", some 1⟩
      (by decide) (by decide) (by decide)⟩

/-- C2 counterexample: a tracked file with `size = 0` does not round
trip — `to_dict` omits falsy values, so the decoded file's size is
absent rather than `0`, refuting the claim for size 0. -/
theorem C2_counterexample :
    (inputFileFromDict []
        [InputFile.to_dict ⟨⟨true, ["a"]⟩, ⟨false, ["b"]⟩, some "aa", some 0⟩]
        (some ⟨true, ["a"]⟩) false).1 =
      .ok ⟨⟨true, ["a"]⟩, ⟨false, ["b"]⟩, some "aa", none⟩ ∧
    (⟨⟨true, ["a"]⟩, ⟨false, ["b"]⟩, some "aa", none⟩ : InputFile).size ≠
      (⟨⟨true, ["a"]⟩, ⟨false, ["b"]⟩, some "aa", some 0⟩ : InputFile).size :=
  ⟨rfl, by decide⟩

/-- C2 amended: the per-file round trip with verification disabled
reproduces the relative path exactly and the checksum and size up to
falsy normalisation — a present non-empty checksum and a present
non-zero size are preserved, while an empty checksum or a zero size
decodes as absent. -/
theorem C2_roundtrip_normalised (fs : FS) (f : InputFile)
    (h : f.path.absolute = false) :
    inputFileFromDict fs [f.to_dict] (some f.src_dir) false = (.ok (normFalsy f), []) :=
  fromDict_to_dict fs f h

/-- C2 witness: the amended round trip at a concrete file. -/
theorem C2_roundtrip_normalised_witness :
    (⟨false, ["b"]⟩ : PyPath).absolute = false ∧
    inputFileFromDict []
        [InputFile.to_dict ⟨⟨true, ["a"]⟩, ⟨false, ["b"]⟩, some "cc", some 4⟩]
        (some ⟨true, ["a"]⟩) false =
      (.ok (normFalsy ⟨⟨true, ["a"]⟩, ⟨false, ["b"]⟩, some "cc", some 4⟩), []) :=
  ⟨rfl, C2_roundtrip_normalised [] ⟨⟨true, ["a"]⟩, ⟨false, ["b"]⟩, some "cc", some 4⟩ rfl⟩

/-- C1 counterexample: a registry whose source root owns no file loses
that root in the manifest round trip — `to_dict` only emits roots that
own files and `from_dict` reads the roots back from those keys, so the
decoded registry's roots differ from the original's. -/
theorem C1_counterexample :
    expFilesFromDict [] (ExperimentFiles.to_dict ⟨"exp", [⟨true, ["a"]⟩], []⟩) false =
      (.ok ⟨"exp", [], []⟩, []) ∧
    (⟨"exp", [], []⟩ : ExperimentFiles).src_dir ≠
      (⟨"exp", [⟨true, ["a"]⟩], []⟩ : ExperimentFiles).src_dir :=
  ⟨rfl, by decide⟩

/-- C4 counterexample: `update_srcdir` assigns the new source roots
before rebasing, so when the rebase then fails with `notFound` the
registry is observed with the new roots — the file set is unchanged,
but the operation is not all-or-nothing as claimed. -/
theorem C4_counterexample :
    updateSrcdir [⟨⟨true, ["a", "f"]⟩, "aa", 1⟩]
        ⟨"e", [⟨true, ["a"]⟩], [⟨⟨true, ["a"]⟩, ⟨false, ["f"]⟩, some "aa", some 1⟩]⟩
        [⟨true, ["b"]⟩] true false =
      (⟨"e", [⟨true, ["b"]⟩], [⟨⟨true, ["a"]⟩, ⟨false, ["f"]⟩, some "aa", some 1⟩]⟩,
        some .notFound) ∧
    [(⟨true, ["b"]⟩ : PyPath)] ≠ [(⟨true, ["a"]⟩ : PyPath)] :=
  ⟨rfl, by decide⟩

end Ifsbench
